import Mathlib

/-!
Verification of the multi-model review pipeline of `ai-peer-review`
(`src/ai_peer_review/cli.py`).  The pipeline is embedded shallowly:

* the model registry (`get_available_models`, the `--models` filtering in
  `review`),
* the per-model review cache loop (`review_<model>.md` artifacts, the
  `overwrite` flag, the `models_to_process` list),
* the meta-review / concerns-extraction tail of the `review` command
  (`re.search` over the backend response, `json.loads`, the pandas
  `DataFrame` built from the `concerns` array, the column-defaulting loop,
  and the final `results.json` record).

External collaborators (the review backends reached through
`process_paper`, the synthesis backend reached through
`generate_meta_review`, the extraction backend, and the file system) are
parameters of the embedding: the store is a partial map from model name to
persisted review text, `process_paper` is a function from the dispatched
model list to the mapping of generated reviews, and the extraction
backend's raw response is a string input.
-/

/-- JSON values, the shape produced by Python's `json.loads` on the
extraction backend's response.  Numbers are modelled as integers only:
fractional and exponent literals are rejected by the embedded parser (a
documented restriction of the model; no pipeline property analysed here
involves non-integer numbers). -/
inductive JVal where
  | null : JVal
  | bool (b : Bool) : JVal
  | num (n : Int) : JVal
  | str (s : String) : JVal
  | arr (elems : List JVal) : JVal
  | obj (fields : List (String × JVal)) : JVal
deriving Repr, BEq

/-- Python-`dict` insertion: if the key is present its value is replaced in
place, otherwise the pair is appended.  This is the semantics of
`d[k] = v` and of duplicate keys in `json.loads` (last value wins, first
position kept). -/
def dictInsert {α : Type} (d : List (String × α)) (k : String) (v : α) :
    List (String × α) :=
  if d.any (fun p => p.1 = k) then
    d.map (fun p => if p.1 = k then (k, v) else p)
  else
    d ++ [(k, v)]

/-- Key lookup in an association list (first match), the semantics of
`d[k]` / `k in d` on a Python dict whose keys are unique. -/
def dictLookup {α : Type} (k : String) : List (String × α) → Option α
  | [] => none
  | p :: ps => if p.1 = k then some p.2 else dictLookup k ps

/-- Whitespace skipping of the JSON grammar. -/
def skipWs : List Char → List Char
  | [] => []
  | c :: cs =>
    if c = ' ' ∨ c = '\n' ∨ c = '\t' ∨ c = '\r' then skipWs cs else c :: cs

/-- JSON escape characters accepted after a backslash.  `\uXXXX` escapes
are not modelled (the embedded parser fails on them). -/
def escChar (c : Char) : Option Char :=
  if c = '"' then some '"'
  else if c = '\\' then some '\\'
  else if c = '/' then some '/'
  else if c = 'n' then some '\n'
  else if c = 't' then some '\t'
  else if c = 'r' then some '\r'
  else none

/-- Parse the body of a JSON string literal (the opening quote already
consumed); returns the decoded string and the remaining input. -/
def parseStringBody : List Char → Option (String × List Char)
  | [] => none
  | c :: cs =>
    if c = '"' then some ("", cs)
    else if c = '\\' then
      match cs with
      | [] => none
      | e :: cs2 =>
        match escChar e with
        | some ec =>
          (parseStringBody cs2).map (fun p => (String.mk (ec :: p.1.data), p.2))
        | none => none
    else
      (parseStringBody cs).map (fun p => (String.mk (c :: p.1.data), p.2))

/-- Digit run to a natural number. -/
def digitsToNat (ds : List Char) : Nat :=
  ds.foldl (fun n c => n * 10 + (c.toNat - 48)) 0

/-- Parse a JSON number.  Only optionally-signed integer literals are
modelled; a following `.`/`e`/`E` makes the parse fail (documented
restriction, see `JVal`). -/
def parseNumber (cs : List Char) : Option (JVal × List Char) :=
  let signed := match cs with
    | '-' :: r => (true, r)
    | _ => (false, cs)
  let ds := signed.2.takeWhile Char.isDigit
  let rest := signed.2.dropWhile Char.isDigit
  if ds.isEmpty then none
  else
    match rest with
    | '.' :: _ => none
    | 'e' :: _ => none
    | 'E' :: _ => none
    | _ =>
      let n : Int := Int.ofNat (digitsToNat ds)
      some (.num (if signed.1 then -n else n), rest)

mutual

/-- Fuel-indexed recursive-descent JSON value parser (the core of the
`json.loads` model). -/
def parseVal : Nat → List Char → Option (JVal × List Char)
  | 0, _ => none
  | n + 1, cs =>
    match skipWs cs with
    | [] => none
    | c :: rest =>
      if c = '\x7b' then
        match skipWs rest with
        | '\x7d' :: r => some (.obj [], r)
        | cs2 => (parseMembers n [] cs2).map (fun p => (.obj p.1, p.2))
      else if c = '[' then
        match skipWs rest with
        | ']' :: r => some (.arr [], r)
        | cs2 => (parseElems n [] cs2).map (fun p => (.arr p.1, p.2))
      else if c = '"' then
        (parseStringBody rest).map (fun p => (.str p.1, p.2))
      else if c = 't' then
        match rest with
        | 'r' :: 'u' :: 'e' :: r => some (.bool true, r)
        | _ => none
      else if c = 'f' then
        match rest with
        | 'a' :: 'l' :: 's' :: 'e' :: r => some (.bool false, r)
        | _ => none
      else if c = 'n' then
        match rest with
        | 'u' :: 'l' :: 'l' :: r => some (.null, r)
        | _ => none
      else
        parseNumber (c :: rest)

/-- Object members: `"key" : value` separated by commas, terminated by a
closing brace.  Members accumulate with `dictInsert`, matching Python's
dict semantics for duplicate keys. -/
def parseMembers : Nat → List (String × JVal) → List Char →
    Option (List (String × JVal) × List Char)
  | 0, _, _ => none
  | n + 1, acc, cs =>
    match skipWs cs with
    | '"' :: rest =>
      match parseStringBody rest with
      | none => none
      | some (k, r1) =>
        match skipWs r1 with
        | ':' :: r2 =>
          match parseVal n r2 with
          | none => none
          | some (v, r3) =>
            match skipWs r3 with
            | ',' :: r4 => parseMembers n (dictInsert acc k v) r4
            | '\x7d' :: r4 => some (dictInsert acc k v, r4)
            | _ => none
        | _ => none
    | _ => none

/-- Array elements separated by commas, terminated by a closing bracket. -/
def parseElems : Nat → List JVal → List Char →
    Option (List JVal × List Char)
  | 0, _, _ => none
  | n + 1, acc, cs =>
    match parseVal n cs with
    | none => none
    | some (v, r) =>
      match skipWs r with
      | ',' :: r2 => parseElems n (acc ++ [v]) r2
      | ']' :: r2 => some (acc ++ [v], r2)
      | _ => none

end

/-- Model of Python's `json.loads`: the whole input (modulo surrounding
whitespace) must be one JSON value, otherwise the call raises — modelled
as `none`. -/
def json_loads (s : String) : Option JVal :=
  match parseVal (2 * s.length + 4) s.data with
  | some (v, rest) => if (skipWs rest).isEmpty then some v else none
  | none => none

/-- The prefix of a character list ending at its last closing brace, or
`none` when the list has no closing brace. -/
def truncAtLastRBrace : List Char → Option (List Char)
  | [] => none
  | c :: cs =>
    match truncAtLastRBrace cs with
    | some t => some (c :: t)
    | none => if c = '\x7d' then some [c] else none

/-- The suffix of a character list starting at its first opening brace, or
`none` when the list has no opening brace. -/
def dropToFirstLBrace : List Char → Option (List Char)
  | [] => none
  | c :: cs => if c = '\x7b' then some (c :: cs) else dropToFirstLBrace cs

/-- Model of `re.search(r'\x7b.*\x7d', json_text, re.DOTALL)` in
`cli.py`: the greedy dot-all pattern matches from the first opening brace
that precedes the last closing brace through that last closing brace, and
the match fails when no such pair exists. -/
def jsonRegexSpan (s : String) : Option String :=
  ((truncAtLastRBrace s.data).bind dropToFirstLBrace).map String.mk

/-- A pandas cell: a concrete JSON value, or the NaN that pandas inserts
for a record that lacks one of the frame's columns. -/
inductive Cell where
  | val (v : JVal) : Cell
  | nan : Cell
deriving Repr, BEq

/-- Model of the concerns `DataFrame`: the ordered column list plus the
original records; a cell is the record's value for the column, NaN when
the record lacks the key. -/
structure Table where
  columns : List String
  rows : List (List (String × JVal))
deriving Repr, BEq

/-- Cell of one record under one column (pandas row/column access). -/
def cellOf (r : List (String × JVal)) (k : String) : Cell :=
  match dictLookup k r with
  | some v => .val v
  | none => .nan

/-- Keys of one record. -/
def recordKeys (r : List (String × JVal)) : List String := r.map Prod.fst

/-- Ordered union of the records' keys, in first-appearance order: the
column index pandas builds for a `DataFrame` constructed from a list of
dicts. -/
def unionKeys (recs : List (List (String × JVal))) : List String :=
  recs.foldl
    (fun acc r =>
      (recordKeys r).foldl
        (fun acc2 k => if acc2.contains k then acc2 else acc2 ++ [k]) acc)
    []

/-- A JSON value that is an object, as a record. -/
def asObj : JVal → Option (List (String × JVal))
  | .obj fields => some fields
  | _ => none

/-- Model of `pd.DataFrame(concerns_data["concerns"])` for the shape the
extraction prompt requests: an array of objects becomes a frame whose
columns are the union of the objects' keys.  Any other shape is modelled
as the constructor raising (e.g. `pd.DataFrame` of a scalar raises
`ValueError`), which the surrounding `try/except` in `cli.py` turns into
a warning. -/
def pdDataFrame : JVal → Option Table
  | .arr elems =>
    match elems.mapM asObj with
    | some recs => some { columns := unionKeys recs, rows := recs }
    | none => none
  | _ => none

/-- One step of the column-defaulting loop in `cli.py`
(`df[model_name] = False`): append the column and give every row the
value `False`. -/
def addColumnFalse (T : Table) (m : String) : Table :=
  { columns := T.columns ++ [m],
    rows := T.rows.map (fun r => r ++ [(m, JVal.bool false)]) }

/-- The `for model_name in model_names: if model_name not in df.columns:
df[model_name] = False` loop of `cli.py`. -/
def ensureModelColumns (T : Table) (models : List String) : Table :=
  models.foldl (fun t m => if t.columns.contains m then t else addColumnFalse t m) T

/-- Outcome of the concerns-extraction tail: the table written to
`concerns_table.csv` (none when no artifact is produced) and whether the
`Error processing concerns table` warning was echoed. -/
structure ExtractOutcome where
  table : Option Table
  warned : Bool
deriving Repr, BEq

/-- The concerns-extraction tail of the `review` command (`cli.py` lines
213–234): search the backend response for a brace-delimited span, parse
it with `json.loads`, require a top-level `concerns` key, build the
`DataFrame`, default missing model columns to `False`, and write the CSV;
a parse or construction failure is caught and echoed as a warning, and
an absent span or absent `concerns` key is skipped silently.  A span
produced by `jsonRegexSpan` starts with an opening brace, so a
successfully parsed payload is always an object; the non-object branch is
unreachable and modelled as the silent skip. -/
def processExtraction (response : String) (modelNames : List String) :
    ExtractOutcome :=
  match jsonRegexSpan response with
  | none => { table := none, warned := false }
  | some sub =>
    match json_loads sub with
    | none => { table := none, warned := true }
    | some (.obj fields) =>
      match dictLookup "concerns" fields with
      | none => { table := none, warned := false }
      | some v =>
        match pdDataFrame v with
        | none => { table := none, warned := true }
        | some T => { table := some (ensureModelColumns T modelNames), warned := false }
    | some _ => { table := none, warned := false }

/-- The concern sequence the run ends up with: the table's rows when a
table was produced, otherwise the empty sequence. -/
def concernsOf (eo : ExtractOutcome) : List (List (String × JVal)) :=
  match eo.table with
  | some T => T.rows
  | none => []

/-- `get_available_models` in `cli.py`: the fixed known set of model
identifiers. -/
def available_models : List String :=
  ["gpt4-o1",
   "gpt4-o3-mini",
   "claude-3.7-sonnet",
   "gemini-2.5-pro",
   "deepseek-r1",
   "llama-4-maverick"]

/-- Model selection in the `review` command (`cli.py` lines 98–104): with
no `--models` option (modelled as the empty requested list, since a
non-empty option string never splits to an empty list) every known model
is selected; otherwise the requested names are filtered by exact,
case-sensitive membership in the known set. -/
def select_models (requested : List String) : List String :=
  if requested.isEmpty then available_models
  else requested.filter (fun m => available_models.contains m)

/-- The error message echoed when no requested model is known. -/
def noValidModelsMsg : String :=
  "No valid models specified. Available models: " ++
    String.intercalate ", " available_models

/-- Messages emitted by the model-validation block of `review` (`cli.py`
lines 99–104).  The only message in this block is the empty-selection
error; unknown identifiers are filtered out without any message. -/
def validationWarnings (requested : List String) : List String :=
  if ¬ requested.isEmpty ∧ (select_models requested).isEmpty then
    [noValidModelsMsg]
  else []

/-- The parsed structured payload: the brace-delimited span fed to
`json.loads`, when one exists and parses. -/
def parsedPayload (response : String) : Option JVal :=
  (jsonRegexSpan response).bind json_loads

/-- Extraction failure, as the claim phrases it: no structured payload can
be parsed from the response, or the parsed payload has no top-level
`concerns` entry. -/
def extractionFailed (response : String) : Bool :=
  match jsonRegexSpan response with
  | none => true
  | some sub =>
    match json_loads sub with
    | none => true
    | some (.obj fields) => (dictLookup "concerns" fields).isNone
    | some _ => true

/-- Whether the extraction tail echoes its warning on a failed extraction:
only when a brace-delimited span was found but `json.loads` raised. -/
def parseFailedWarning (response : String) : Bool :=
  match jsonRegexSpan response with
  | none => false
  | some sub => (json_loads sub).isNone

/-- Arguments of one `review` invocation.  `requested` is the parsed
`--models` list (`[]` when the option is absent; a present option never
splits to an empty list). -/
structure Args where
  requested : List String
  overwrite : Bool
  metaReview : Bool

/-- External collaborators of one `review` invocation: the persisted
review artifacts (`store m` is the content of `review_<m>.md` if it
exists), `process_paper` (`gen`), `generate_meta_review` (`synth`,
returning the meta-review text and the `nato_to_model` mapping), and the
extraction backend's raw response. -/
structure Collab where
  store : String → Option String
  gen : List String → List (String × String)
  synth : List (String × String) → String × List (String × String)
  extractResponse : String

/-- The `results.json` record built at the end of the meta-review block. -/
structure RunResult where
  individual_reviews : List (String × String)
  meta_review : String
  reviewer_to_model : List (String × String)
deriving Repr, BEq

/-- Observable outcome of one `review` invocation: the final review
mapping, the models dispatched to generation, the artifacts written, the
messages that matter to the analysed claims, and whether/with what the
synthesis and extraction backends were invoked. -/
structure Outcome where
  invalidModels : Bool
  reviews : List (String × String)
  modelsToProcess : List String
  reviewFileWrites : List (String × String)
  noReviewsMessage : Bool
  metaReviewFile : Option String
  synthCalled : Option (List String)
  extractCalled : Bool
  concernsTable : Option Table
  extractWarned : Bool
  resultsJson : Option RunResult

/-- One iteration of the cache loop (`cli.py` lines 114–125): an existing
artifact is loaded into the review dict unless `overwrite` is set;
otherwise the model is appended to `models_to_process`. -/
def cacheStep (store : String → Option String) (overwrite : Bool)
    (acc : List (String × String) × List String) (m : String) :
    List (String × String) × List String :=
  match store m with
  | some t =>
    if overwrite then (acc.1, acc.2 ++ [m]) else (dictInsert acc.1 m t, acc.2)
  | none => (acc.1, acc.2 ++ [m])

/-- Result of the cache-and-dispatch phase (`cli.py` lines 110–141): the
final review mapping, the models dispatched to `process_paper`, and the
freshly generated reviews (each written to its `review_<model>.md`). -/
structure Resolve where
  reviews : List (String × String)
  toProcess : List String
  newReviews : List (String × String)

/-- The cache-and-dispatch phase of `review`: walk the selected models
loading persisted artifacts (unless `overwrite`), call `process_paper` on
the remaining models (the source guards the call with
`if models_to_process:`), and merge the generated reviews into the
mapping. -/
def resolveReviews (a : Args) (c : Collab) : Resolve :=
  let selected := select_models a.requested
  let cacheOut := selected.foldl (cacheStep c.store a.overwrite) ([], [])
  let newReviews := if cacheOut.2.isEmpty then [] else c.gen cacheOut.2
  { reviews := newReviews.foldl (fun d p => dictInsert d p.1 p.2) cacheOut.1,
    toProcess := cacheOut.2,
    newReviews := newReviews }

/-- The `review` command (`cli.py` lines 86–248).  The prompt assembled
for the extraction backend is not modelled (its response is the
collaborator input `c.extractResponse`); `review_data` is maintained by
the source identically to `reviews` and the two are modelled as one
mapping.  When validation selects no model the command echoes the error
and returns before any further work. -/
def runReview (a : Args) (c : Collab) : Outcome :=
  let selected := select_models a.requested
  if selected.isEmpty then
    { invalidModels := true, reviews := [], modelsToProcess := [],
      reviewFileWrites := [], noReviewsMessage := false,
      metaReviewFile := none, synthCalled := none, extractCalled := false,
      concernsTable := none, extractWarned := false, resultsJson := none }
  else
    let res := resolveReviews a c
    let toProcess := res.toProcess
    let newReviews := res.newReviews
    let reviews := res.reviews
    if a.metaReview then
      let synthOut := c.synth reviews
      let eo := processExtraction c.extractResponse (reviews.map Prod.fst)
      { invalidModels := false, reviews := reviews, modelsToProcess := toProcess,
        reviewFileWrites := newReviews, noReviewsMessage := reviews.isEmpty,
        metaReviewFile := some synthOut.1,
        synthCalled := some (reviews.map Prod.fst), extractCalled := true,
        concernsTable := eo.table, extractWarned := eo.warned,
        resultsJson := some { individual_reviews := reviews,
                              meta_review := synthOut.1,
                              reviewer_to_model := synthOut.2 } }
    else
      { invalidModels := false, reviews := reviews, modelsToProcess := toProcess,
        reviewFileWrites := newReviews, noReviewsMessage := reviews.isEmpty,
        metaReviewFile := none, synthCalled := none, extractCalled := false,
        concernsTable := none, extractWarned := false, resultsJson := none }

/-- Modelled from the spec: `generate_meta_review` lives in
`ai_peer_review/review.py`, which is not among the provided sources (only
its caller in `cli.py` is).  Spec §4.4 assigns each model a reviewer code
by enumerating a fixed ordered alphabet of tokens in iteration order of
the input mapping; the caller's variable name `nato_to_model` fixes the
alphabet to the NATO phonetic alphabet. -/
def reviewerCodes : List String :=
  ["Alpha", "Bravo", "Charlie", "Delta", "Echo", "Foxtrot", "Golf",
   "Hotel", "India", "Juliett", "Kilo", "Lima", "Mike", "November",
   "Oscar", "Papa", "Quebec", "Romeo", "Sierra", "Tango", "Uniform",
   "Victor", "Whiskey", "Xray", "Yankee", "Zulu"]

/-- Modelled from the spec: the `nato_to_model` AnonymizationMap built by
`generate_meta_review` (missing from the provided sources) — reviewer
codes drawn in order from the fixed alphabet, paired with the models in
iteration order of the input review mapping. -/
def anonymizationMap (reviews : List (String × String)) :
    List (String × String) :=
  reviewerCodes.zip (reviews.map Prod.fst)

theorem map_fst_zip_eq_take {α β : Type} :
    ∀ (l1 : List α) (l2 : List β), (l1.zip l2).map Prod.fst = l1.take l2.length
  | [], _ => by simp
  | _ :: _, [] => by simp
  | a :: l1, b :: l2 => by
    simp [List.zip_cons_cons, map_fst_zip_eq_take l1 l2]

/-- C2: every identifier returned by model validation belongs to the fixed
known set (comparison is exact and case-sensitive string equality), and an
empty requested subset selects the full known set. -/
theorem validate_known_models (S : List String) :
    (∀ m ∈ select_models S, m ∈ available_models) ∧
    (S = [] → select_models S = available_models) := by
  constructor
  · intro m hm
    unfold select_models at hm
    by_cases h : S.isEmpty
    · simpa [h] using hm
    · simp only [h, if_false, Bool.false_eq_true] at hm
      have := (List.mem_filter.mp hm).2
      simpa using this
  · intro h
    subst h
    rfl

theorem validate_known_models_witness :
    select_models [] = available_models ∧ "gpt4-o1" ∈ available_models :=
  ⟨(validate_known_models []).2 rfl,
   (validate_known_models ["gpt4-o1", "bogus"]).1 "gpt4-o1" (by decide)⟩

/-- C9 counterexample: requesting the same known identifier twice leaves it
duplicated in the selected list — the code filters but never deduplicates. -/
theorem duplicate_models_counterexample :
    select_models ["gpt4-o1", "gpt4-o1"] = ["gpt4-o1", "gpt4-o1"] ∧
    ¬ (select_models ["gpt4-o1", "gpt4-o1"]).Nodup := by
  exact ⟨by decide, by decide⟩

/-- C9 amended: the selected list is duplicate-free only when the requested
list itself is (filtering preserves any duplicates the request had among
known identifiers); the default selection — no requested models — is the
full known list, which is duplicate-free. -/
theorem selected_models_nodup_of_request_nodup (requested : List String)
    (hnd : requested.Nodup) :
    (select_models requested).Nodup ∧ available_models.Nodup ∧
    select_models [] = available_models := by
  refine ⟨?_, by decide, rfl⟩
  unfold select_models
  by_cases h : requested.isEmpty
  · simp only [h, if_true]
    decide
  · simp only [h, Bool.false_eq_true, if_false]
    exact hnd.filter _

theorem selected_models_nodup_witness :
    (select_models ["gpt4-o1", "bogus"]).Nodup :=
  (selected_models_nodup_of_request_nodup ["gpt4-o1", "bogus"] (by decide)).1

/-- C5 (code bug, evaluated at the failing input): with one valid selected
model, no persisted artifact and a generation phase that produces nothing,
the final review mapping is empty; the command echoes the no-reviews
message and nevertheless invokes `generate_meta_review` on the empty
mapping — synthesis over zero reviews is not skipped. -/
theorem empty_reviews_synthesis_invoked :
    (runReview { requested := ["gpt4-o1"], overwrite := false, metaReview := true }
        { store := fun _ => none, gen := fun _ => [],
          synth := fun _ => ("meta-review text", []), extractResponse := "" }).reviews
        = [] ∧
    (runReview { requested := ["gpt4-o1"], overwrite := false, metaReview := true }
        { store := fun _ => none, gen := fun _ => [],
          synth := fun _ => ("meta-review text", []), extractResponse := "" }).synthCalled
        = some [] ∧
    (runReview { requested := ["gpt4-o1"], overwrite := false, metaReview := true }
        { store := fun _ => none, gen := fun _ => [],
          synth := fun _ => ("meta-review text", []), extractResponse := "" }).noReviewsMessage
        = true := by
  exact ⟨rfl, rfl, rfl⟩

/-- C6 counterexample: an unknown identifier in the requested list is
dropped, yet the validation block reports no warning at all (its only
message is the empty-selection error, not issued here). -/
theorem unknown_model_no_warning_counterexample :
    "bogus-model" ∉ select_models ["gpt4-o1", "bogus-model"] ∧
    select_models ["gpt4-o1", "bogus-model"] = ["gpt4-o1"] ∧
    validationWarnings ["gpt4-o1", "bogus-model"] = [] := by
  exact ⟨by decide, by decide, by decide⟩

theorem runReview_meta_eq (a : Args) (c : Collab)
    (hmeta : a.metaReview = true)
    (hsel : (select_models a.requested).isEmpty = false) :
    runReview a c =
      { invalidModels := false,
        reviews := (resolveReviews a c).reviews,
        modelsToProcess := (resolveReviews a c).toProcess,
        reviewFileWrites := (resolveReviews a c).newReviews,
        noReviewsMessage := (resolveReviews a c).reviews.isEmpty,
        metaReviewFile := some (c.synth (resolveReviews a c).reviews).1,
        synthCalled := some ((resolveReviews a c).reviews.map Prod.fst),
        extractCalled := true,
        concernsTable :=
          (processExtraction c.extractResponse
            ((resolveReviews a c).reviews.map Prod.fst)).table,
        extractWarned :=
          (processExtraction c.extractResponse
            ((resolveReviews a c).reviews.map Prod.fst)).warned,
        resultsJson :=
          some { individual_reviews := (resolveReviews a c).reviews,
                 meta_review := (c.synth (resolveReviews a c).reviews).1,
                 reviewer_to_model := (c.synth (resolveReviews a c).reviews).2 } } := by
  unfold runReview
  simp only [hsel, hmeta, Bool.false_eq_true, if_false, if_true]

/-- C10: whenever meta-review generation is enabled and the run proceeds
past model validation, the `results.json` record is written and contains
exactly the final individual review mapping, the synthesized meta-review
text, and the reviewer-code-to-model map — with no condition on the
extraction backend's response, i.e. regardless of whether concerns
extraction succeeded or failed. -/
theorem results_json_written (a : Args) (c : Collab)
    (hmeta : a.metaReview = true)
    (hsel : (select_models a.requested).isEmpty = false) :
    (runReview a c).resultsJson =
      some { individual_reviews := (runReview a c).reviews,
             meta_review := (c.synth (runReview a c).reviews).1,
             reviewer_to_model := (c.synth (runReview a c).reviews).2 } ∧
    (runReview a c).metaReviewFile = some (c.synth (runReview a c).reviews).1 := by
  rw [runReview_meta_eq a c hmeta hsel]
  exact ⟨rfl, rfl⟩

theorem results_json_written_witness :
    (runReview { requested := ["gpt4-o1"], overwrite := false, metaReview := true }
        { store := fun _ => some "cached text", gen := fun _ => [],
          synth := fun _ => ("meta text", [("Alpha", "gpt4-o1")]),
          extractResponse := "no payload here" }).resultsJson =
      some { individual_reviews := [("gpt4-o1", "cached text")],
             meta_review := "meta text",
             reviewer_to_model := [("Alpha", "gpt4-o1")] } := by
  have h := results_json_written
      { requested := ["gpt4-o1"], overwrite := false, metaReview := true }
      { store := fun _ => some "cached text", gen := fun _ => [],
        synth := fun _ => ("meta text", [("Alpha", "gpt4-o1")]),
        extractResponse := "no payload here" }
      rfl (by decide)
  exact h.1

/-- C6 amended: unknown identifiers are dropped silently — the validation
block emits no per-identifier warning, its only possible message being the
empty-selection error — and when the selected set comes out empty the
command stops before dispatching any generation call or invoking
synthesis. -/
theorem unknown_models_dropped_silently (requested : List String)
    (a : Args) (c : Collab) (m : String)
    (hm : m ∈ requested) (hunk : m ∉ available_models)
    (ha : a.requested = requested) :
    m ∉ select_models requested ∧
    (∀ w ∈ validationWarnings requested, w = noValidModelsMsg) ∧
    ((select_models requested).isEmpty = true →
      (runReview a c).modelsToProcess = [] ∧
      (runReview a c).synthCalled = none ∧
      (runReview a c).invalidModels = true) := by
  have hne : requested.isEmpty = false := by
    cases requested with
    | nil => cases hm
    | cons x xs => rfl
  refine ⟨?_, ?_, ?_⟩
  · intro hmem
    unfold select_models at hmem
    rw [hne] at hmem
    simp only [Bool.false_eq_true, if_false] at hmem
    have := (List.mem_filter.mp hmem).2
    exact hunk (by simpa using this)
  · intro w hw
    unfold validationWarnings at hw
    by_cases h : ¬ requested.isEmpty ∧ (select_models requested).isEmpty
    · rw [if_pos h] at hw
      simpa using hw
    · rw [if_neg h] at hw
      cases hw
  · intro hsel
    simp [runReview, ha, hsel]

theorem unknown_models_dropped_silently_witness :
    "totally-bogus" ∉ select_models ["totally-bogus"] ∧
    validationWarnings ["totally-bogus"] = [noValidModelsMsg] := by
  have h := unknown_models_dropped_silently ["totally-bogus"]
      { requested := ["totally-bogus"], overwrite := false, metaReview := true }
      { store := fun _ => none, gen := fun _ => [],
        synth := fun _ => ("", []), extractResponse := "" }
      "totally-bogus" (by decide) (by decide) rfl
  exact ⟨h.1, by decide⟩

/-- C8 (modelled from the spec, see `anonymizationMap`): for every
non-empty review mapping with distinct model identifiers (Python dict keys
are necessarily distinct) and at most as many models as there are reviewer
codes, the AnonymizationMap pairs codes with models bijectively and in a
deterministic, stable order: its models are exactly the input models in
input order, its codes are the first `n` tokens of the fixed alphabet,
and neither side contains a repeat. -/
theorem anonymization_map_bijective (reviews : List (String × String))
    (_hne : reviews ≠ [])
    (hnd : (reviews.map Prod.fst).Nodup)
    (hlen : reviews.length ≤ reviewerCodes.length) :
    (anonymizationMap reviews).map Prod.snd = reviews.map Prod.fst ∧
    (anonymizationMap reviews).map Prod.fst = reviewerCodes.take reviews.length ∧
    ((anonymizationMap reviews).map Prod.fst).Nodup ∧
    ((anonymizationMap reviews).map Prod.snd).Nodup := by
  have hlen2 : (reviews.map Prod.fst).length ≤ reviewerCodes.length := by
    simpa using hlen
  have h1 : (anonymizationMap reviews).map Prod.snd = reviews.map Prod.fst :=
    List.map_snd_zip _ _ hlen2
  have h2 : (anonymizationMap reviews).map Prod.fst
      = reviewerCodes.take (reviews.map Prod.fst).length :=
    map_fst_zip_eq_take _ _
  have hcodes : reviewerCodes.Nodup := by decide
  refine ⟨h1, ?_, ?_, ?_⟩
  · rw [h2]
    simp
  · rw [h2]
    exact (List.take_sublist _ _).nodup hcodes
  · rw [h1]
    exact hnd

theorem anonymization_map_bijective_witness :
    (anonymizationMap [("gpt4-o1", "r1"), ("claude-3.7-sonnet", "r2")]).map Prod.snd
      = ["gpt4-o1", "claude-3.7-sonnet"] ∧
    (anonymizationMap [("gpt4-o1", "r1"), ("claude-3.7-sonnet", "r2")]).map Prod.fst
      = ["Alpha", "Bravo"] := by
  have h := anonymization_map_bijective
      [("gpt4-o1", "r1"), ("claude-3.7-sonnet", "r2")]
      (by decide) (by decide) (by decide)
  exact ⟨h.1, h.2.1⟩

theorem dictLookup_isSome_iff_any {α : Type} (d : List (String × α)) (k : String) :
    (dictLookup k d).isSome = d.any (fun p => p.1 = k) := by
  induction d with
  | nil => rfl
  | cons p ps ih =>
    by_cases h : p.1 = k <;> simp [dictLookup, h, ih]

theorem dictLookup_map_replace {α : Type} (d : List (String × α))
    (k m : String) (v : α) :
    dictLookup m (d.map (fun p => if p.1 = k then (k, v) else p)) =
      if m = k then (dictLookup m d).map (fun _ => v) else dictLookup m d := by
  induction d with
  | nil => by_cases h : m = k <;> simp [dictLookup, h]
  | cons p ps ih =>
    by_cases hpk : p.1 = k
    · by_cases hmk : m = k
      · simp [dictLookup, hpk, hmk]
      · have hkm : ¬ k = m := fun hc => hmk hc.symm
        simp [dictLookup, hpk, hmk, hkm, ih]
    · by_cases hpm : p.1 = m
      · by_cases hmk : m = k
        · exact absurd (hmk ▸ hpm) hpk
        · simp [dictLookup, hpk, hpm, hmk]
      · simp [dictLookup, hpk, hpm, ih]

theorem dictLookup_append_single {α : Type} (d : List (String × α))
    (k m : String) (v : α) :
    dictLookup m (d ++ [(k, v)]) =
      match dictLookup m d with
      | some x => some x
      | none => if k = m then some v else none := by
  induction d with
  | nil => simp [dictLookup]
  | cons p ps ih =>
    by_cases hpm : p.1 = m <;> simp [dictLookup, hpm, ih]

theorem dictLookup_dictInsert_self {α : Type} (d : List (String × α))
    (k : String) (v : α) :
    dictLookup k (dictInsert d k v) = some v := by
  unfold dictInsert
  by_cases h : d.any (fun p => p.1 = k)
  · rw [if_pos h, dictLookup_map_replace, if_pos rfl]
    have hs : (dictLookup k d).isSome = true := by
      rw [dictLookup_isSome_iff_any]
      exact h
    cases hl : dictLookup k d with
    | none => rw [hl] at hs; cases hs
    | some x => simp
  · rw [if_neg h, dictLookup_append_single]
    have hs : (dictLookup k d).isSome = false := by
      rw [dictLookup_isSome_iff_any]
      exact Bool.not_eq_true _ ▸ (by simpa using h)
    cases hl : dictLookup k d with
    | none => simp
    | some x => rw [hl] at hs; cases hs

theorem dictLookup_dictInsert_ne {α : Type} (d : List (String × α))
    (k m : String) (v : α) (h : ¬ m = k) :
    dictLookup m (dictInsert d k v) = dictLookup m d := by
  unfold dictInsert
  by_cases hany : d.any (fun p => p.1 = k)
  · rw [if_pos hany, dictLookup_map_replace, if_neg h]
  · rw [if_neg hany, dictLookup_append_single]
    have hkm : ¬ k = m := fun hc => h hc.symm
    cases hl : dictLookup m d with
    | none => simp [hkm]
    | some x => simp

theorem cache_fold_toProcess (store : String → Option String) (ov : Bool)
    (sel : List String) :
    ∀ acc : List (String × String) × List String,
      (sel.foldl (cacheStep store ov) acc).2 =
        acc.2 ++ sel.filter (fun x => ov || (store x).isNone) := by
  induction sel with
  | nil => intro acc; simp
  | cons m sel ih =>
    intro acc
    simp only [List.foldl_cons, List.filter_cons]
    cases hsm : store m with
    | some t =>
      cases ov with
      | true => simp [cacheStep, hsm, ih]
      | false => simp [cacheStep, hsm, ih]
    | none => simp [cacheStep, hsm, ih]

theorem cache_fold_lookup_preserved (store : String → Option String)
    (m : String) (t : String) (hs : store m = some t) (sel : List String) :
    ∀ acc : List (String × String) × List String,
      dictLookup m acc.1 = some t →
      dictLookup m ((sel.foldl (cacheStep store false) acc).1) = some t := by
  induction sel with
  | nil => intro acc h; simpa using h
  | cons x sel ih =>
    intro acc h
    simp only [List.foldl_cons]
    apply ih
    cases hsx : store x with
    | some u =>
      simp only [cacheStep, hsx, if_false, Bool.false_eq_true]
      by_cases hxm : m = x
      · subst hxm
        rw [hs] at hsx
        cases hsx
        simp [dictLookup_dictInsert_self]
      · simpa [dictLookup_dictInsert_ne _ _ _ _ hxm] using h
    | none => simpa [cacheStep, hsx] using h

theorem cache_fold_lookup_mem (store : String → Option String)
    (m : String) (t : String) (hs : store m = some t) (sel : List String) :
    ∀ acc : List (String × String) × List String, m ∈ sel →
      dictLookup m ((sel.foldl (cacheStep store false) acc).1) = some t := by
  induction sel with
  | nil => intro acc h; cases h
  | cons x sel ih =>
    intro acc hmem
    simp only [List.foldl_cons]
    by_cases hxm : m = x
    · subst hxm
      apply cache_fold_lookup_preserved store m t hs
      simp only [cacheStep, hs, if_false, Bool.false_eq_true]
      simp [dictLookup_dictInsert_self]
    · exact ih _ (by
        cases hmem with
        | head => exact absurd rfl hxm
        | tail _ h => exact h)

theorem dict_fold_lookup_not_mem {α : Type} (m : String)
    (nr : List (String × α)) (hkeys : ∀ p ∈ nr, ¬ p.1 = m) :
    ∀ d : List (String × α),
      dictLookup m (nr.foldl (fun d p => dictInsert d p.1 p.2) d) =
        dictLookup m d := by
  induction nr with
  | nil => intro d; rfl
  | cons p nr ih =>
    intro d
    simp only [List.foldl_cons]
    rw [ih (fun q hq => hkeys q (List.mem_cons_of_mem _ hq))]
    exact dictLookup_dictInsert_ne _ _ _ _
      (fun hc => hkeys p (List.mem_cons_self _ _) hc.symm)

theorem resolveReviews_toProcess (a : Args) (c : Collab) :
    (resolveReviews a c).toProcess =
      ((select_models a.requested).foldl
        (cacheStep c.store a.overwrite) ([], [])).2 := rfl

theorem resolveReviews_newReviews (a : Args) (c : Collab) :
    (resolveReviews a c).newReviews =
      (if (resolveReviews a c).toProcess.isEmpty then []
       else c.gen (resolveReviews a c).toProcess) := rfl

theorem resolveReviews_reviews (a : Args) (c : Collab) :
    (resolveReviews a c).reviews =
      (resolveReviews a c).newReviews.foldl (fun d p => dictInsert d p.1 p.2)
        ((select_models a.requested).foldl
          (cacheStep c.store a.overwrite) ([], [])).1 := rfl

/-- C1: for every model of the selected set with a persisted review
artifact, when `overwrite` is off the pipeline loads the persisted text
into the final review mapping and does not dispatch the model to
generation; the models dispatched are exactly those without a persisted
artifact — or, when `overwrite` is on, all selected models.  Hence a
re-run over an unchanged store reproduces the persisted texts verbatim.
The hypothesis on `gen` states that `process_paper` reports reviews only
for the models it was asked to process. -/
theorem cached_review_reused (a : Args) (c : Collab) (m t : String)
    (hm : m ∈ select_models a.requested)
    (hs : c.store m = some t)
    (hov : a.overwrite = false)
    (hgen : ∀ ms : List String, ∀ p ∈ c.gen ms, p.1 ∈ ms) :
    (resolveReviews a c).toProcess =
      (select_models a.requested).filter
        (fun x => a.overwrite || (c.store x).isNone) ∧
    m ∉ (resolveReviews a c).toProcess ∧
    dictLookup m (resolveReviews a c).reviews = some t ∧
    (runReview a c).modelsToProcess = (resolveReviews a c).toProcess ∧
    dictLookup m (runReview a c).reviews = some t := by
  have htp : (resolveReviews a c).toProcess =
      (select_models a.requested).filter
        (fun x => a.overwrite || (c.store x).isNone) := by
    unfold resolveReviews
    exact cache_fold_toProcess c.store a.overwrite _ _
  have hnotin : m ∉ (resolveReviews a c).toProcess := by
    rw [htp]
    intro hc
    have := (List.mem_filter.mp hc).2
    rw [hov, hs] at this
    simp at this
  have hkeys : ∀ p ∈ (resolveReviews a c).newReviews, ¬ p.1 = m := by
    intro p hp hc
    apply hnotin
    rw [resolveReviews_newReviews] at hp
    by_cases hemp : (resolveReviews a c).toProcess.isEmpty
    · rw [if_pos hemp] at hp
      cases hp
    · rw [if_neg hemp] at hp
      have h2 := hgen _ _ hp
      rwa [hc] at h2
  have hlook : dictLookup m (resolveReviews a c).reviews = some t := by
    rw [resolveReviews_reviews, dict_fold_lookup_not_mem m _ hkeys, hov]
    exact cache_fold_lookup_mem c.store m t hs _ _ hm
  have hne : (select_models a.requested).isEmpty = false := by
    cases hsel : select_models a.requested with
    | nil => rw [hsel] at hm; cases hm
    | cons x xs => rfl
  have hrun : (runReview a c).modelsToProcess = (resolveReviews a c).toProcess ∧
      (runReview a c).reviews = (resolveReviews a c).reviews := by
    unfold runReview
    simp only [hne, Bool.false_eq_true, if_false]
    cases hmr : a.metaReview <;> simp [hmr]
  exact ⟨htp, hnotin, hlook, hrun.1, hrun.2 ▸ hlook⟩

theorem cached_review_reused_witness :
    dictLookup "gpt4-o1"
      (runReview
        { requested := ["gpt4-o1", "deepseek-r1"], overwrite := false,
          metaReview := true }
        { store := fun m => if m = "gpt4-o1" then some "stored review" else none,
          gen := fun ms => ms.map (fun x => (x, "fresh")),
          synth := fun _ => ("meta", []), extractResponse := "" }).reviews
      = some "stored review" := by
  have h := cached_review_reused
      { requested := ["gpt4-o1", "deepseek-r1"], overwrite := false,
        metaReview := true }
      { store := fun m => if m = "gpt4-o1" then some "stored review" else none,
        gen := fun ms => ms.map (fun x => (x, "fresh")),
        synth := fun _ => ("meta", []), extractResponse := "" }
      "gpt4-o1" "stored review"
      (by decide) (by decide) rfl
      (by
        intro ms p hp
        obtain ⟨x, hx, rfl⟩ := List.mem_map.mp hp
        exact hx)
  exact h.2.2.2.2

theorem truncAtLastRBrace_eq_none (ys : List Char)
    (hys : ∀ c ∈ ys, ¬ c = '\x7d') : truncAtLastRBrace ys = none := by
  induction ys with
  | nil => rfl
  | cons c cs ih =>
    simp only [truncAtLastRBrace]
    rw [ih (fun d hd => hys d (List.mem_cons_of_mem _ hd))]
    simp [hys c (List.mem_cons_self _ _)]

theorem truncAtLastRBrace_append (xs ys : List Char)
    (hys : ∀ c ∈ ys, ¬ c = '\x7d') :
    truncAtLastRBrace (xs ++ ys) = truncAtLastRBrace xs := by
  induction xs with
  | nil =>
    simp only [List.nil_append]
    rw [truncAtLastRBrace_eq_none ys hys]
    rfl
  | cons x xs ih =>
    simp only [List.cons_append, truncAtLastRBrace, List.append_eq, ih]

theorem truncAtLastRBrace_rbrace_end (ys : List Char) :
    truncAtLastRBrace (ys ++ ['\x7d']) = some (ys ++ ['\x7d']) := by
  induction ys with
  | nil => rfl
  | cons c cs ih =>
    simp only [List.cons_append, truncAtLastRBrace, List.append_eq, ih]

theorem dropToFirstLBrace_append (pre mid : List Char)
    (hpre : ∀ c ∈ pre, ¬ c = '\x7b') (hmid : mid.head? = some '\x7b') :
    dropToFirstLBrace (pre ++ mid) = some mid := by
  induction pre with
  | nil =>
    cases mid with
    | nil => cases hmid
    | cons c cs =>
      have hc : c = '\x7b' := by simpa using hmid
      simp [dropToFirstLBrace, hc]
  | cons p ps ih =>
    simp only [List.cons_append, dropToFirstLBrace]
    rw [if_neg (hpre p (List.mem_cons_self _ _))]
    exact ih (fun d hd => hpre d (List.mem_cons_of_mem _ hd))

/-- C7 counterexample: the response consists of one valid JSON object
followed by prose that contains a closing brace.  A well-formed structured
payload is embedded in the response, but the greedy first-brace-to-last-
brace match hands `json.loads` the object plus the trailing prose, so no
payload is parsed at all — the parser does not locate the embedded
payload and the parsed result differs from the embedded object. -/
theorem embedded_payload_not_located_counterexample :
    json_loads "\x7b\"concerns\": []\x7d" = some (.obj [("concerns", .arr [])]) ∧
    jsonRegexSpan ("\x7b\"concerns\": []\x7d" ++ " junk \x7d")
      = some "\x7b\"concerns\": []\x7d junk \x7d" ∧
    parsedPayload ("\x7b\"concerns\": []\x7d" ++ " junk \x7d") = none := by
  exact ⟨rfl, rfl, rfl⟩

/-- C7 amended: the parser takes the span from the first opening brace to
the last closing brace of the response and feeds exactly that span to
`json.loads`; it therefore recovers an embedded payload precisely when
that span is valid JSON.  In particular, for a response consisting of one
valid JSON object whose leading prose contains no opening brace and whose
trailing prose contains no closing brace, the parsed payload equals the
embedded object; prose containing such braces can make parsing fail even
though a well-formed payload is embedded (see the counterexample). -/
theorem embedded_object_clean_prose (pre mid post : String) (v : JVal)
    (hpre : ∀ c ∈ pre.data, ¬ c = '\x7b')
    (hpost : ∀ c ∈ post.data, ¬ c = '\x7d')
    (hstart : mid.data.head? = some '\x7b')
    (hend : ∃ ys, mid.data = ys ++ ['\x7d'])
    (hparse : json_loads mid = some v) :
    parsedPayload (pre ++ mid ++ post) = some v := by
  obtain ⟨ys, hys⟩ := hend
  have hdata : (pre ++ mid ++ post).data = (pre.data ++ mid.data) ++ post.data := by
    simp [String.data_append]
  unfold parsedPayload jsonRegexSpan
  rw [hdata, truncAtLastRBrace_append _ _ hpost]
  have htr : truncAtLastRBrace (pre.data ++ mid.data)
      = some (pre.data ++ mid.data) := by
    rw [hys, ← List.append_assoc, truncAtLastRBrace_rbrace_end,
      List.append_assoc, ← hys]
  rw [htr]
  have hdrop : dropToFirstLBrace (pre.data ++ mid.data) = some mid.data :=
    dropToFirstLBrace_append _ _ hpre hstart
  show ((dropToFirstLBrace (pre.data ++ mid.data)).map String.mk).bind json_loads
      = some v
  rw [hdrop]
  show json_loads (String.mk mid.data) = some v
  cases mid with
  | mk data => exact hparse

theorem embedded_object_clean_prose_witness :
    parsedPayload
        ("Sure, here it is: " ++ "\x7b\"concerns\": []\x7d" ++ " Hope this helps.")
      = some (.obj [("concerns", .arr [])]) := by
  apply embedded_object_clean_prose
  · decide
  · decide
  · rfl
  · exact ⟨"\x7b\"concerns\": []".data, rfl⟩
  · rfl

/-- C4 counterexample: a response with no brace-delimited payload at all.
Extraction has failed (no structured payload can be parsed), the result is
indeed empty and no artifact is produced — but no warning is reported:
the code passes the `re.search` miss silently, contradicting the claim
that a non-fatal warning accompanies every extraction failure. -/
theorem extraction_silent_failure_counterexample :
    extractionFailed "The model found no concerns." = true ∧
    (processExtraction "The model found no concerns." ["gpt4-o1"]).warned = false ∧
    (processExtraction "The model found no concerns." ["gpt4-o1"]).table = none := by
  exact ⟨rfl, rfl, rfl⟩

/-- C4 amended: on every failed extraction (no brace-delimited span, span
not valid JSON, or payload without a top-level `concerns` entry) the
result is the empty concern sequence, no concerns-table artifact is
produced, and the run is not aborted — the meta-review artifact and
`results.json` are still written; however, the non-fatal warning is
reported only when a span was found but failed to parse — a missing span
or a missing `concerns` key is passed silently. -/
theorem extraction_soft_failure (resp : String) (models : List String)
    (a : Args) (c : Collab)
    (hfail : extractionFailed resp = true) :
    (processExtraction resp models).table = none ∧
    concernsOf (processExtraction resp models) = [] ∧
    (processExtraction resp models).warned = parseFailedWarning resp ∧
    (a.metaReview = true → (select_models a.requested).isEmpty = false →
      c.extractResponse = resp →
      (runReview a c).resultsJson.isSome = true ∧
      (runReview a c).metaReviewFile.isSome = true) := by
  have hmain : (processExtraction resp models).table = none ∧
      (processExtraction resp models).warned = parseFailedWarning resp := by
    unfold extractionFailed at hfail
    cases hspan : jsonRegexSpan resp with
    | none => simp [processExtraction, parseFailedWarning, hspan]
    | some sub =>
      rw [hspan] at hfail
      have hfail2 : (match json_loads sub with
          | none => true
          | some (JVal.obj fields) => (dictLookup "concerns" fields).isNone
          | some _ => true) = true := hfail
      cases hload : json_loads sub with
      | none => simp [processExtraction, parseFailedWarning, hspan, hload]
      | some v =>
        rw [hload] at hfail2
        cases v with
        | null => simp [processExtraction, parseFailedWarning, hspan, hload]
        | bool b => simp [processExtraction, parseFailedWarning, hspan, hload]
        | num n => simp [processExtraction, parseFailedWarning, hspan, hload]
        | str s => simp [processExtraction, parseFailedWarning, hspan, hload]
        | arr xs => simp [processExtraction, parseFailedWarning, hspan, hload]
        | obj fields =>
          have hlk : dictLookup "concerns" fields = none := by
            simpa [Option.isNone_iff_eq_none] using hfail2
          simp [processExtraction, parseFailedWarning, hspan, hload, hlk]
  refine ⟨hmain.1, ?_, hmain.2, ?_⟩
  · unfold concernsOf
    rw [hmain.1]
  · intro hmeta hsel _
    rw [runReview_meta_eq a c hmeta hsel]
    exact ⟨rfl, rfl⟩

theorem extraction_soft_failure_witness :
    (processExtraction "no structured output at all" ["gpt4-o1"]).table = none ∧
    concernsOf (processExtraction "no structured output at all" ["gpt4-o1"]) = [] ∧
    (runReview { requested := ["gpt4-o1"], overwrite := false, metaReview := true }
        { store := fun _ => some "cached", gen := fun _ => [],
          synth := fun _ => ("meta", [("Alpha", "gpt4-o1")]),
          extractResponse := "no structured output at all" }).resultsJson.isSome
      = true := by
  have h := extraction_soft_failure "no structured output at all" ["gpt4-o1"]
      { requested := ["gpt4-o1"], overwrite := false, metaReview := true }
      { store := fun _ => some "cached", gen := fun _ => [],
        synth := fun _ => ("meta", [("Alpha", "gpt4-o1")]),
        extractResponse := "no structured output at all" }
      rfl
  exact ⟨h.1, h.2.1, (h.2.2.2 rfl (by decide) rfl).1⟩

/-- C3 counterexample: the parsed payload has two concerns; the reviewed
model `gpt4-o1` is flagged in the first but absent from the second.  The
model's column exists (it appears in the union of keys), so the
defaulting loop does not touch it, and the second concern's entry for the
reviewed model is pandas NaN — a missing value, not the boolean `false`
the claim promises. -/
theorem concern_flag_nan_counterexample :
    (processExtraction
        "\x7b\"concerns\": [\x7b\"concern\": \"c1\", \"gpt4-o1\": true\x7d, \x7b\"concern\": \"c2\"\x7d]\x7d"
        ["gpt4-o1"]).table.map
        (fun T => T.rows.map (fun r => cellOf r "gpt4-o1"))
      = some [Cell.val (JVal.bool true), Cell.nan] := by
  rfl

theorem dictLookup_append {α : Type} (r l : List (String × α)) (m : String) :
    dictLookup m (r ++ l) =
      match dictLookup m r with
      | some x => some x
      | none => dictLookup m l := by
  induction r with
  | nil => rfl
  | cons p ps ih =>
    by_cases hpm : p.1 = m <;> simp [dictLookup, hpm, ih]

theorem dictLookup_map_const {α : Type} (extra : List String) (m : String) (v : α) :
    dictLookup m (extra.map (fun k => (k, v))) =
      if m ∈ extra then some v else none := by
  induction extra with
  | nil => simp [dictLookup]
  | cons k ks ih =>
    by_cases hkm : k = m
    · subst hkm
      simp [dictLookup]
    · have hmk : ¬ m = k := fun hc => hkm hc.symm
      simp [dictLookup, hkm, hmk, ih]

theorem ensureModelColumns_cons (T : Table) (m0 : String) (ms : List String) :
    ensureModelColumns T (m0 :: ms) =
      ensureModelColumns
        (if T.columns.contains m0 then T else addColumnFalse T m0) ms := rfl

theorem ensureModelColumns_spec (ms : List String) :
    ∀ T : Table, ∃ extra : List String,
      (ensureModelColumns T ms).columns = T.columns ++ extra ∧
      (ensureModelColumns T ms).rows =
        T.rows.map (fun r => r ++ extra.map (fun k => (k, JVal.bool false))) ∧
      extra.Nodup ∧
      (∀ k ∈ extra, k ∈ ms ∧ k ∉ T.columns) ∧
      (∀ m ∈ ms, m ∈ T.columns ∨ m ∈ extra) := by
  induction ms with
  | nil =>
    intro T
    refine ⟨[], by simp [ensureModelColumns], ?_, by simp, by simp, by simp⟩
    simp [ensureModelColumns]
  | cons m0 ms ih =>
    intro T
    by_cases h : T.columns.contains m0
    · obtain ⟨extra, h1, h2, h3, h4, h5⟩ := ih T
      rw [ensureModelColumns_cons, if_pos h]
      refine ⟨extra, h1, h2, h3, ?_, ?_⟩
      · exact fun k hk =>
          ⟨List.mem_cons_of_mem _ (h4 k hk).1, (h4 k hk).2⟩
      · intro m hm
        rcases List.mem_cons.mp hm with rfl | hm2
        · left
          simpa using h
        · exact h5 m hm2
    · obtain ⟨extra, h1, h2, h3, h4, h5⟩ := ih (addColumnFalse T m0)
      rw [ensureModelColumns_cons, if_neg h]
      have hm0 : m0 ∉ T.columns := by simpa using h
      refine ⟨m0 :: extra, ?_, ?_, ?_, ?_, ?_⟩
      · rw [h1]
        simp [addColumnFalse]
      · rw [h2]
        simp [addColumnFalse, List.map_map, Function.comp, List.append_assoc]
      · refine List.nodup_cons.mpr ⟨?_, h3⟩
        intro hc
        exact (h4 m0 hc).2 (by simp [addColumnFalse])
      · intro k hk
        rcases List.mem_cons.mp hk with rfl | hk2
        · exact ⟨List.mem_cons_self _ _, hm0⟩
        · refine ⟨List.mem_cons_of_mem _ (h4 k hk2).1, ?_⟩
          intro hc
          exact (h4 k hk2).2 (by simp [addColumnFalse, hc])
      · intro m hm
        rcases List.mem_cons.mp hm with rfl | hm2
        · right
          exact List.mem_cons_self _ _
        · rcases h5 m hm2 with hL | hR
          · rcases (by simpa [addColumnFalse] using hL :
                m ∈ T.columns ∨ m = m0) with hc | rfl
            · exact Or.inl hc
            · exact Or.inr (List.mem_cons_self _ _)
          · exact Or.inr (List.mem_cons_of_mem _ hR)

theorem dedupAppend_sub (keys : List String) :
    ∀ acc : List String, ∀ x ∈ acc,
      x ∈ keys.foldl (fun a k => if a.contains k then a else a ++ [k]) acc := by
  induction keys with
  | nil => intro acc x hx; simpa using hx
  | cons k ks ih =>
    intro acc x hx
    simp only [List.foldl_cons]
    by_cases h : acc.contains k
    · rw [if_pos h]
      exact ih acc x hx
    · rw [if_neg h]
      exact ih _ x (List.mem_append_left _ hx)

theorem dedupAppend_mem (keys : List String) :
    ∀ acc : List String, ∀ k ∈ keys,
      k ∈ keys.foldl (fun a k2 => if a.contains k2 then a else a ++ [k2]) acc := by
  induction keys with
  | nil => intro acc k hk; cases hk
  | cons k0 ks ih =>
    intro acc k hk
    simp only [List.foldl_cons]
    rcases List.mem_cons.mp hk with rfl | hk2
    · by_cases h : acc.contains k
      · rw [if_pos h]
        exact dedupAppend_sub ks acc k (by simpa using h)
      · rw [if_neg h]
        exact dedupAppend_sub ks _ k
          (List.mem_append_right _ (List.mem_singleton.mpr rfl))
    · by_cases h : acc.contains k0
      · rw [if_pos h]
        exact ih acc k hk2
      · rw [if_neg h]
        exact ih _ k hk2

theorem dedupAppend_nodup (keys : List String) :
    ∀ acc : List String, acc.Nodup →
      (keys.foldl (fun a k => if a.contains k then a else a ++ [k]) acc).Nodup := by
  induction keys with
  | nil => intro acc h; simpa using h
  | cons k ks ih =>
    intro acc h
    simp only [List.foldl_cons]
    by_cases hc : acc.contains k
    · rw [if_pos hc]
      exact ih acc h
    · rw [if_neg hc]
      refine ih _ ?_
      have hk : k ∉ acc := by simpa using hc
      simp [List.nodup_append, h, hk]

theorem unionFold_sub (recs : List (List (String × JVal))) :
    ∀ acc : List String, ∀ x ∈ acc,
      x ∈ recs.foldl
        (fun acc r =>
          (recordKeys r).foldl
            (fun a k => if a.contains k then a else a ++ [k]) acc) acc := by
  induction recs with
  | nil => intro acc x hx; simpa using hx
  | cons r rs ih =>
    intro acc x hx
    simp only [List.foldl_cons]
    exact ih _ x (dedupAppend_sub _ acc x hx)

theorem unionKeys_mem_of (recs : List (List (String × JVal))) :
    ∀ acc : List String, ∀ r ∈ recs, ∀ k ∈ recordKeys r,
      k ∈ recs.foldl
        (fun acc r =>
          (recordKeys r).foldl
            (fun a k => if a.contains k then a else a ++ [k]) acc) acc := by
  induction recs with
  | nil => intro acc r hr; cases hr
  | cons r0 rs ih =>
    intro acc r hr k hk
    simp only [List.foldl_cons]
    rcases List.mem_cons.mp hr with rfl | hr2
    · exact unionFold_sub rs _ k (dedupAppend_mem _ acc k hk)
    · exact ih _ r hr2 k hk

theorem unionKeys_mem (recs : List (List (String × JVal)))
    (r : List (String × JVal)) (hr : r ∈ recs) (k : String)
    (hk : k ∈ recordKeys r) : k ∈ unionKeys recs :=
  unionKeys_mem_of recs [] r hr k hk

theorem unionKeys_nodup (recs : List (List (String × JVal))) :
    (unionKeys recs).Nodup := by
  suffices h : ∀ acc : List String, acc.Nodup →
      (recs.foldl
        (fun acc r =>
          (recordKeys r).foldl
            (fun a k => if a.contains k then a else a ++ [k]) acc) acc).Nodup by
    exact h [] (by simp)
  induction recs with
  | nil => intro acc h; simpa using h
  | cons r rs ih =>
    intro acc h
    simp only [List.foldl_cons]
    exact ih _ (dedupAppend_nodup _ acc h)

theorem dictLookup_eq_none_iff {α : Type} (r : List (String × α)) (m : String) :
    dictLookup m r = none ↔ m ∉ r.map Prod.fst := by
  induction r with
  | nil => simp [dictLookup]
  | cons p ps ih =>
    by_cases hpm : p.1 = m
    · simp [dictLookup, hpm]
    · have hmp : ¬ m = p.1 := fun hc => hpm hc.symm
      simp [dictLookup, hpm, hmp, ih]

theorem cellOf_append_extra (r : List (String × JVal)) (extra : List String)
    (m : String) (hne : m ∉ extra) :
    cellOf (r ++ extra.map (fun k => (k, JVal.bool false))) m = cellOf r m := by
  unfold cellOf
  rw [dictLookup_append]
  cases hl : dictLookup m r with
  | some x => rfl
  | none =>
    rw [dictLookup_map_const, if_neg hne]

/-- The concerns table as built by the extraction tail from the parsed
concern records: pandas columns are the ordered union of the records'
keys, and the defaulting loop appends a `False` column for every reviewed
model that has no column yet. -/
def concernsTableOf (recs : List (List (String × JVal)))
    (models : List String) : Table :=
  ensureModelColumns { columns := unionKeys recs, rows := recs } models

theorem processExtraction_table_eq (resp : String) (models : List String)
    (sub : String) (fields : List (String × JVal)) (elems : List JVal)
    (recs : List (List (String × JVal)))
    (hspan : jsonRegexSpan resp = some sub)
    (hload : json_loads sub = some (.obj fields))
    (hconc : dictLookup "concerns" fields = some (.arr elems))
    (hrecs : elems.mapM asObj = some recs) :
    (processExtraction resp models).table = some (concernsTableOf recs models) := by
  have hdf : pdDataFrame (JVal.arr elems) =
      some { columns := unionKeys recs, rows := recs } := by
    show (match elems.mapM asObj with
      | some recs => some { columns := unionKeys recs, rows := recs }
      | none => (none : Option Table)) =
        some { columns := unionKeys recs, rows := recs }
    rw [hrecs]
  simp [processExtraction, hspan, hload, hconc, hdf, concernsTableOf]

/-- C3 amended: every concern row of the produced table has exactly one
entry per column — row keys and the column list are duplicate-free and
every reviewed model is a column; a model absent from *every* parsed
concern is given the boolean `false` in every row by the defaulting loop;
but a model that appears in some parsed concern keeps, in each row, that
row's own entry — so a row from which it is missing carries a missing
(NaN) entry, not `false`. -/
theorem concern_flags_default (resp : String) (models : List String)
    (sub : String) (fields : List (String × JVal)) (elems : List JVal)
    (recs : List (List (String × JVal))) (m : String)
    (hspan : jsonRegexSpan resp = some sub)
    (hload : json_loads sub = some (.obj fields))
    (hconc : dictLookup "concerns" fields = some (.arr elems))
    (hrecs : elems.mapM asObj = some recs)
    (hm : m ∈ models)
    (hnd : ∀ r ∈ recs, (recordKeys r).Nodup) :
    (processExtraction resp models).table = some (concernsTableOf recs models) ∧
    m ∈ (concernsTableOf recs models).columns ∧
    (concernsTableOf recs models).columns.Nodup ∧
    (∀ r2 ∈ (concernsTableOf recs models).rows, (recordKeys r2).Nodup) ∧
    (m ∉ unionKeys recs →
      ∀ r2 ∈ (concernsTableOf recs models).rows,
        cellOf r2 m = Cell.val (JVal.bool false)) ∧
    (m ∈ unionKeys recs →
      List.Forall₂ (fun r2 r => cellOf r2 m = cellOf r m)
        (concernsTableOf recs models).rows recs) := by
  obtain ⟨extra, h1, h2, h3, h4, h5⟩ :=
    ensureModelColumns_spec models { columns := unionKeys recs, rows := recs }
  have h1b : (concernsTableOf recs models).columns = unionKeys recs ++ extra := h1
  have h2b : (concernsTableOf recs models).rows =
      recs.map (fun r => r ++ extra.map (fun k => (k, JVal.bool false))) := h2
  have h4b : ∀ k ∈ extra, k ∈ models ∧ k ∉ unionKeys recs := h4
  have h5b : ∀ x ∈ models, x ∈ unionKeys recs ∨ x ∈ extra := h5
  have hdisj : (unionKeys recs).Disjoint extra :=
    fun a ha hb => (h4b a hb).2 ha
  refine ⟨processExtraction_table_eq resp models sub fields elems recs
      hspan hload hconc hrecs, ?_, ?_, ?_, ?_, ?_⟩
  · rw [h1b]
    rcases h5b m hm with hL | hR
    · exact List.mem_append_left _ hL
    · exact List.mem_append_right _ hR
  · rw [h1b]
    exact (unionKeys_nodup recs).append h3 hdisj
  · rw [h2b]
    intro r2 hr2
    obtain ⟨r, hr, rfl⟩ := List.mem_map.mp hr2
    have hk : recordKeys (r ++ extra.map (fun k => (k, JVal.bool false))) =
        recordKeys r ++ extra := by
      show (r ++ extra.map (fun k => (k, JVal.bool false))).map Prod.fst
          = r.map Prod.fst ++ extra
      rw [List.map_append, List.map_map]
      congr 1
      exact List.map_id extra
    rw [hk]
    exact (hnd r hr).append h3
      (fun a ha hb => (h4b a hb).2 (unionKeys_mem recs r hr a ha))
  · intro hnm
    rw [h2b]
    intro r2 hr2
    obtain ⟨r, hr, rfl⟩ := List.mem_map.mp hr2
    have hmext : m ∈ extra := (h5b m hm).resolve_left hnm
    have hnone : dictLookup m r = none :=
      (dictLookup_eq_none_iff r m).mpr
        (fun hc => hnm (unionKeys_mem recs r hr m hc))
    simp [cellOf, dictLookup_append, hnone, dictLookup_map_const, hmext]
  · intro hmem
    rw [h2b, List.forall₂_map_left_iff, List.forall₂_same]
    intro r hr
    exact cellOf_append_extra r extra m (fun hc => (h4b m hc).2 hmem)

theorem concern_flags_default_witness :
    (processExtraction "\x7b\"concerns\": [\x7b\"concern\": \"c1\"\x7d]\x7d"
        ["gpt4-o1"]).table
      = some (concernsTableOf [[("concern", JVal.str "c1")]] ["gpt4-o1"]) ∧
    cellOf ((concernsTableOf [[("concern", JVal.str "c1")]] ["gpt4-o1"]).rows.headD [])
        "gpt4-o1" = Cell.val (JVal.bool false) := by
  have h := concern_flags_default
      "\x7b\"concerns\": [\x7b\"concern\": \"c1\"\x7d]\x7d" ["gpt4-o1"]
      "\x7b\"concerns\": [\x7b\"concern\": \"c1\"\x7d]\x7d"
      [("concerns", JVal.arr [JVal.obj [("concern", JVal.str "c1")]])]
      [JVal.obj [("concern", JVal.str "c1")]]
      [[("concern", JVal.str "c1")]] "gpt4-o1"
      rfl rfl rfl rfl (by decide)
      (by
        intro r hr
        simp only [List.mem_singleton] at hr
        subst hr
        decide)
  have hrows : (concernsTableOf [[("concern", JVal.str "c1")]] ["gpt4-o1"]).rows
      = [[("concern", JVal.str "c1"), ("gpt4-o1", JVal.bool false)]] := rfl
  refine ⟨h.1, ?_⟩
  exact h.2.2.2.2.1 (by decide) _ (by rw [hrows]; simp [hrows])
